import Mathlib

/-!
# Shallow embedding of the wormhole daemon core

This file embeds, in Lean 4, the parts of the `wormhole` daemon that the
specification's claims are about:

* `persistence.py` — the per-session JSONL event log (`EventPersistence`)
  and the session registry (`SessionPersistence`);
* `session.py` — the session wrapper (`WormholeSession`): sequence
  assignment, the in-memory replay buffer with size-based eviction, the
  receive-pump message handler, and the permission round-trip;
* `daemon.py` — the broadcaster and the subscribe handler of the
  WebSocket peer loop.

Modelling conventions:

* JSON values are the inductive `Json` below.  A serialized JSONL line is
  modelled at the abstract-syntax level (one `Json` value per line): the
  encoder `PersistedEvent.toJsonLine` mirrors `to_json_line` and the
  decoder `PersistedEvent.fromJsonLine` mirrors `from_json_line`
  (a decode failure models the `json.loads` / field-extraction exception
  that the Python code catches).
* `datetime` values (timestamps, `created_at`) are modelled as natural
  ticks; `isoformat`/`fromisoformat` is a bijection, modelled by storing
  the tick as a JSON number.
* Python floats (`cost_usd`) are modelled as integers.
* Side effects (disk writes, the broadcast callback, the registry
  persistence callback) are reified as effect traces returned alongside
  the new state, in the order the Python code performs them.
-/

/-- JSON values, as produced by `json.dumps` / consumed by `json.loads`.
Numbers are modelled as integers (the program serializes sequence numbers,
timestamps and costs). Object fields keep insertion order, like Python
dicts. -/
inductive Json where
  | null : Json
  | bool : Bool → Json
  | num : Int → Json
  | str : String → Json
  | arr : List Json → Json
  | obj : List (String × Json) → Json


/-- `d.get(k)` on a Python dict modelled as an ordered association list
(keys are unique in every dict the program builds). -/
def dictGet (kvs : List (String × Json)) (k : String) : Option Json :=
  (kvs.find? (fun p => p.1 == k)).map (fun p => p.2)

/-- Python `str()` applied to a JSON value (used by
`str(data["session_id"])`).  On strings it is the identity; other shapes
are stringified. -/
def pyStr : Json → String
  | Json.null => "None"
  | Json.bool b => cond b "True" "False"
  | Json.num n => toString n
  | Json.str s => s
  | Json.arr _ => "<list>"
  | Json.obj _ => "<dict>"

/-- One persisted event of the on-disk event log (`PersistedEvent` in
`persistence.py`): daemon-assigned sequence, timestamp, raw agent
message. -/
structure PersistedEvent where
  sequence : Nat
  timestamp : Nat
  message : Json


/-- `PersistedEvent.to_json_line`: one JSONL line with fields
`sequence`, `timestamp`, `message`. -/
def PersistedEvent.toJsonLine (e : PersistedEvent) : Json :=
  Json.obj [("sequence", Json.num (e.sequence : Int)),
            ("timestamp", Json.num (e.timestamp : Int)),
            ("message", e.message)]

/-- `PersistedEvent.from_json_line`: extracts `sequence`, `timestamp`,
`message`; any shape mismatch models the exception the callers catch.
(Sequences and timestamps the program writes are non-negative; a negative
number on disk is treated as unparsable.) -/
def PersistedEvent.fromJsonLine (j : Json) : Option PersistedEvent :=
  match j with
  | Json.obj kvs =>
    match dictGet kvs "sequence", dictGet kvs "timestamp", dictGet kvs "message" with
    | some (Json.num s), some (Json.num t), some m =>
      if 0 ≤ s ∧ 0 ≤ t then some ⟨s.toNat, t.toNat, m⟩ else none
    | _, _, _ => none
  | _ => none

/-- Model of `len(json.dumps(v))` with the default separators `", "` and
`": "` (`json.dumps` with `ensure_ascii=True` emits pure ASCII, so bytes
and characters coincide).  It measures both the in-memory buffer size
estimate and the on-disk byte length of a serialized line. -/
def jsonDumpLen : Json → Nat
  | Json.null => 4
  | Json.bool b => cond b 4 5
  | Json.num n => (toString n).length
  | Json.str s => s.length + 2
  | Json.arr xs => 2 + jsonDumpLenArr xs
  | Json.obj kvs => 2 + jsonDumpLenObj kvs
where
  jsonDumpLenArr : List Json → Nat
    | [] => 0
    | [x] => jsonDumpLen x
    | x :: y :: xs => jsonDumpLen x + 2 + jsonDumpLenArr (y :: xs)
  jsonDumpLenObj : List (String × Json) → Nat
    | [] => 0
    | [(k, v)] => k.length + 4 + jsonDumpLen v
    | (k, v) :: p :: xs => k.length + 4 + jsonDumpLen v + 2 + jsonDumpLenObj (p :: xs)

namespace EventPersistence

/-- Byte length one line occupies in the event file: its serialized text
plus the trailing newline that `append_event` writes. -/
def lineBytes (line : Json) : Nat := jsonDumpLen line + 1

/-- Total byte size of the event file on disk. -/
def fileBytes (file : List Json) : Nat := (file.map lineBytes).sum

/-- Effects the event-log and session code can perform besides returning
a value, in program order. -/
inductive Effect where
  | appendLog (e : PersistedEvent) : Effect
  | logError : Effect
  | persistCb : Effect
  | broadcastEvent (session : String) (sequence : Nat) (timestamp : Nat)
      (message : Json) : Effect
  | broadcastPermissionRequest (request_id : String) (tool_name : String)
      (tool_input : Json) (session_name : String) : Effect


/-- `EventPersistence.append_event`: appends one encoded line to the
session's file.  The Python body wraps the write in `try/except` and only
logs a failure, so the function is total: on a failed disk write
(`diskOk = false`) the file is unchanged and an error is logged; nothing
propagates to the caller. -/
def append_event (diskOk : Bool) (file : List Json) (e : PersistedEvent) :
    List Json × List Effect :=
  if diskOk then (file ++ [e.toJsonLine], [Effect.appendLog e])
  else (file, [Effect.logError])

/-- `EventPersistence.load_events`: parses every line, skipping
unparsable ones, and keeps events with `sequence > since_sequence`. -/
def load_events (file : List Json) (since_sequence : Nat) : List PersistedEvent :=
  file.filterMap (fun line =>
    match PersistedEvent.fromJsonLine line with
    | some e => if since_sequence < e.sequence then some e else none
    | none => none)

/-- `EventPersistence.get_latest_sequence`: 0 for a missing or empty
file; otherwise read the last `min(4096, file_size)` bytes, strip, split
on newlines and parse the last element.  When the file's last line (with
its newline) fits inside that tail chunk, the last split element is the
complete last line; otherwise it is a truncated suffix of it, whose parse
raises — the exception is caught and the initial `latest = 0` is
returned.  A parse failure of a complete last line likewise yields 0. -/
def get_latest_sequence (file : List Json) : Nat :=
  match file.getLast? with
  | none => 0
  | some line =>
    if lineBytes line ≤ min 4096 (fileBytes file) then
      match PersistedEvent.fromJsonLine line with
      | some e => e.sequence
      | none => 0
    else 0

/-- `EventPersistence.get_oldest_sequence`: parse the first line;
0 for a missing/empty file or a parse failure. -/
def get_oldest_sequence (file : List Json) : Nat :=
  match file.head? with
  | none => 0
  | some line =>
    match PersistedEvent.fromJsonLine line with
    | some e => e.sequence
    | none => 0

end EventPersistence

theorem PersistedEvent.fromJsonLine_toJsonLine (e : PersistedEvent) :
    PersistedEvent.fromJsonLine e.toJsonLine = some e := by
  simp [PersistedEvent.toJsonLine, PersistedEvent.fromJsonLine, dictGet,
    List.find?, Int.toNat_natCast, e.sequence.cast_nonneg, e.timestamp.cast_nonneg]

/-- A registry descriptor (`PersistedSession` in `persistence.py`). -/
structure PersistedSession where
  name : String
  directory : String
  claude_session_id : Option String
  cost_usd : Int
  created_at : Nat

/-- `PersistedSession.to_dict`. -/
def PersistedSession.to_dict (s : PersistedSession) : Json :=
  Json.obj [("name", Json.str s.name),
            ("directory", Json.str s.directory),
            ("claude_session_id",
              match s.claude_session_id with
              | some c => Json.str c
              | none => Json.null),
            ("cost_usd", Json.num s.cost_usd),
            ("created_at", Json.num (s.created_at : Int))]

namespace SessionPersistence

/-- Filesystem operations the registry code can perform, reified so that
write patterns (direct write vs. write-to-temp-plus-rename) are
observable. -/
inductive FsEffect where
  | mkdirParents (path : String) : FsEffect
  | writeFile (path : String) (contents : Json) : FsEffect
  | renameFile (src : String) (dst : String) : FsEffect
  | logSaveError : FsEffect

/-- `SessionPersistence.save_sessions`: ensures the parent directory
exists, then serializes a version-tagged document and writes it with
`open(self.path, "w")` followed by `json.dump` — a single direct write to
the registry path itself. -/
def save_sessions (path : String) (sessions : List PersistedSession) :
    List FsEffect :=
  [FsEffect.mkdirParents path,
   FsEffect.writeFile path
     (Json.obj [("version", Json.num 1),
                ("sessions", Json.arr (sessions.map PersistedSession.to_dict))])]

end SessionPersistence

/-- `SessionState` from `session.py`. -/
inductive SessionState where
  | idle
  | working
  | awaiting_approval
  | error
deriving DecidableEq

/-- `BufferedEvent` from `session.py`. -/
structure BufferedEvent where
  sequence : Nat
  timestamp : Nat
  message : Json

/-- `BufferedEvent.estimated_size`: serialized size of the message plus
100 bytes of overhead. -/
def BufferedEvent.estimated_size (e : BufferedEvent) : Nat :=
  jsonDumpLen e.message + 100

/-- `PendingPermission` from `session.py`. -/
structure PendingPermission where
  request_id : String
  tool_name : String
  tool_input : Json
  created_at : Nat

/-- The state of one `asyncio.Future[str]` held in
`_pending_permissions`: unresolved, or resolved with a decision string. -/
inductive FutureState where
  | pending
  | done (decision : String)
deriving DecidableEq

open EventPersistence

/-- The mutable state of a `WormholeSession`.  `eventFile` is the JSONL
event file the shared `EventPersistence` keeps for this session's name
(one `Json` value per line). -/
structure SessionSt where
  name : String
  directory : String
  buffer_size_bytes : Nat
  state : SessionState
  claude_session_id : Option String
  cost_usd : Int
  last_activity : Option Nat
  event_buffer : List BufferedEvent
  event_buffer_size : Int
  sequence : Nat
  pending_permissions : List (String × FutureState)
  pending_permission_details : List PendingPermission
  eventFile : List Json

namespace WormholeSession

/-- `WormholeSession.__init__`: fields start empty/idle and the sequence
counter is restored from the persisted events via
`get_latest_sequence(name)`. -/
def construct (name : String) (directory : String) (buffer_size_bytes : Nat)
    (eventFile : List Json) : SessionSt :=
  { name := name
    directory := directory
    buffer_size_bytes := buffer_size_bytes
    state := SessionState.idle
    claude_session_id := none
    cost_usd := 0
    last_activity := none
    event_buffer := []
    event_buffer_size := 0
    sequence := EventPersistence.get_latest_sequence eventFile
    pending_permissions := []
    pending_permission_details := []
    eventFile := eventFile }

/-- `WormholeSession.respond_to_permission`: looks up the future for
`request_id`; if it exists and is not done, resolves it with the decision
and returns `true`, otherwise returns `false` without touching
anything. -/
def respond_to_permission (st : SessionSt) (request_id : String)
    (decision : String) : SessionSt × Bool :=
  match (st.pending_permissions.find? (fun p => p.1 == request_id)).map
      (fun p => p.2) with
  | some FutureState.pending =>
    ({ st with pending_permissions :=
        st.pending_permissions.map (fun p =>
          if p.1 == request_id then (p.1, FutureState.done decision) else p) },
     true)
  | some (FutureState.done _) => (st, false)
  | none => (st, false)

/-- `WormholeSession.get_events_since`: filter the in-memory buffer to
events with `sequence > seq`; serve it when its first element has
sequence `seq + 1`, otherwise fall back to the persisted events. -/
def get_events_since (st : SessionSt) (seq : Nat) : List BufferedEvent :=
  let buffered := st.event_buffer.filter (fun e => decide (seq < e.sequence))
  let fallback : List BufferedEvent :=
    (EventPersistence.load_events st.eventFile seq).map (fun e =>
      { sequence := e.sequence, timestamp := e.timestamp, message := e.message })
  match buffered.head? with
  | some b => if b.sequence = seq + 1 then buffered else fallback
  | none => fallback

/-- `WormholeSession.get_oldest_sequence`. -/
def get_oldest_sequence (st : SessionSt) : Nat :=
  EventPersistence.get_oldest_sequence st.eventFile

/-- `WormholeSession.get_pending_permissions`. -/
def get_pending_permissions (st : SessionSt) : List PendingPermission :=
  st.pending_permission_details

/-- Result type of the SDK permission callback
(`PermissionResultAllow` / `PermissionResultDeny`). -/
inductive PermissionResult where
  | allow (updated_input : Json)
  | deny (message : String) (interrupt : Bool)

/-- First half of `WormholeSession._permission_handler`, up to the
suspension on the future: set state to `awaiting_approval`, install the
future and the pending-permission record under a fresh `request_id`, and
broadcast a `permission_request` frame when a broadcast callback is
set. -/
def permission_handler_enter (broadcastCb : Bool) (st : SessionSt)
    (request_id : String) (tool_name : String) (input_data : Json)
    (now : Nat) : SessionSt × List Effect :=
  ({ st with
      state := SessionState.awaiting_approval
      pending_permissions :=
        st.pending_permissions ++ [(request_id, FutureState.pending)]
      pending_permission_details :=
        st.pending_permission_details ++
          [{ request_id := request_id, tool_name := tool_name,
             tool_input := input_data, created_at := now }] },
   if broadcastCb then
     [Effect.broadcastPermissionRequest request_id tool_name input_data st.name]
   else [])

/-- Second half of `WormholeSession._permission_handler`, after the
future resolves with `decision`: the `finally` block pops the future and
the record and sets state to `working`; then the handler returns
allow-with-unchanged-input on `"allow"` and otherwise a deny with message
`"User denied"` and `interrupt=False`. -/
def permission_handler_resolve (st : SessionSt) (request_id : String)
    (input_data : Json) (decision : String) : SessionSt × PermissionResult :=
  let st' : SessionSt :=
    { st with
        pending_permissions :=
          st.pending_permissions.eraseP (fun p => p.1 == request_id)
        pending_permission_details :=
          st.pending_permission_details.eraseP (fun p => p.request_id == request_id)
        state := SessionState.working }
  (st',
   if decision = "allow" then PermissionResult.allow input_data
   else PermissionResult.deny "User denied" false)

/-- A raw message from the SDK stream, before normalisation: a plain
dict, a dataclass (flattened field-by-field by `asdict`, which is also
how a Pydantic `model_dump` dict arrives), or anything else (wrapped via
`str`). -/
inductive SdkMessage where
  | ofDict (kvs : List (String × Json))
  | ofDataclass (fields : List (String × Json))
  | ofOther (raw : String)

/-- The normalisation step of `_handle_sdk_message`: produce the
`msg_dict` object. -/
def normalizeMsg : SdkMessage → List (String × Json)
  | SdkMessage.ofDict kvs => kvs
  | SdkMessage.ofDataclass fields => fields
  | SdkMessage.ofOther raw => [("raw", Json.str raw)]

/-- The eviction loop of `_handle_sdk_message`: while the buffer's total
estimated size exceeds the cap and the buffer is non-empty, pop from the
oldest end and subtract its estimated size. -/
def evictLoop : List BufferedEvent → Int → Nat → List BufferedEvent × Int
  | [], size, _ => ([], size)
  | e :: rest, size, cap =>
    if (cap : Int) < size then
      evictLoop rest (size - (e.estimated_size : Int)) cap
    else (e :: rest, size)

/-- The session-id capture test of `_handle_sdk_message`: when
`msg_dict.get("subtype") == "init"` and `msg_dict.get("data", {})` is a
dict containing `"session_id"`, the captured value is
`str(data["session_id"])`. -/
def capturedSessionId (msgDict : List (String × Json)) : Option String :=
  match dictGet msgDict "subtype" with
  | some (Json.str s) =>
    if s = "init" then
      match (dictGet msgDict "data").getD (Json.obj []) with
      | Json.obj data => (dictGet data "session_id").map pyStr
      | _ => none
    else none
  | _ => none

/-- The cost extraction of `_handle_sdk_message`:
`msg_dict.get("total_cost_usd")` when it is an `int`/`float` (a Python
`bool` is an `int`, so it also passes the `isinstance` test). -/
def costUpdate (msgDict : List (String × Json)) : Option Int :=
  match dictGet msgDict "total_cost_usd" with
  | some (Json.num c) => some c
  | some (Json.bool b) => some (cond b 1 0)
  | _ => none

/-- The `self._persistence_callback(self)` call sites: the callback runs
only when it is set and the corresponding update happened. -/
def notifyRegistry (persistCb : Bool) (changed : Bool) : List Effect :=
  if persistCb && changed then [Effect.persistCb] else []

/-- `WormholeSession._handle_sdk_message`, with its effects reified in
program order: increment the sequence and stamp the timestamp; normalise
the message; append to the in-memory buffer; persist the event (a failed
disk write, `diskOk = false`, is only logged); evict from the buffer
while over the size cap; capture `data.session_id` from a
`subtype == "init"` message (notifying the registry); take
`total_cost_usd` when numeric (notifying the registry); finally broadcast
the event when a broadcast callback is set. -/
def handle_sdk_message (diskOk broadcastCb persistCb : Bool)
    (st : SessionSt) (now : Nat) (message : SdkMessage) :
    SessionSt × List Effect :=
  let seq := st.sequence + 1
  let msgDict := normalizeMsg message
  let msgJson := Json.obj msgDict
  let event : BufferedEvent :=
    { sequence := seq, timestamp := now, message := msgJson }
  let buf1 := st.event_buffer ++ [event]
  let size1 := st.event_buffer_size + (event.estimated_size : Int)
  let persisted := EventPersistence.append_event diskOk st.eventFile
    { sequence := seq, timestamp := now, message := msgJson }
  let evicted := evictLoop buf1 size1 st.buffer_size_bytes
  let captured := capturedSessionId msgDict
  let costVal := costUpdate msgDict
  let broadcastEffs : List Effect :=
    if broadcastCb then [Effect.broadcastEvent st.name seq now msgJson] else []
  ({ st with
      sequence := seq
      last_activity := some now
      event_buffer := evicted.1
      event_buffer_size := evicted.2
      eventFile := persisted.1
      claude_session_id :=
        match captured with
        | some sid => some sid
        | none => st.claude_session_id
      cost_usd :=
        match costVal with
        | some c => c
        | none => st.cost_usd },
   persisted.2 ++
     (notifyRegistry persistCb captured.isSome ++
       (notifyRegistry persistCb costVal.isSome ++ broadcastEffs)))

end WormholeSession

/-- Messages the daemon sends to WebSocket clients (`protocol.py`), as
far as the claims need them. -/
inductive ServerMsg where
  | event (session : String) (sequence : Nat) (timestamp : Nat) (message : Json)
  | permission_request (request_id : String) (tool_name : String)
      (tool_input : Json) (session_name : String)
  | error (code : String) (message : String)

namespace WormholeDaemon

/-- One connected WebSocket peer as `_handle_connection` sees it: the
socket (identified here by a number) and the per-connection
`subscribed_sessions` set. -/
structure Peer where
  id : Nat
  subscribed : List String

/-- A network send to one peer. -/
inductive NetEffect where
  | send (peerId : Nat) (payload : ServerMsg)

/-- `WormholeDaemon._broadcast`: if there are no clients, do nothing;
otherwise serialize the message once and send it to every connected
client (`asyncio.gather` over `self._clients`), ignoring individual send
failures.  The per-peer subscription set is not consulted. -/
def broadcast (clients : List Peer) (msg : ServerMsg) : List NetEffect :=
  if clients.isEmpty then []
  else clients.map (fun c => NetEffect.send c.id msg)

/-- The argument of a `subscribe` frame: a list of session names or the
wildcard string `"*"`. -/
inductive SubscribeArg where
  | wildcard
  | names (sessions : List String)

/-- Python `set.update`, preserving first-insertion order of the
modelled set. -/
def setUpdate (s : List String) (new : List String) : List String :=
  new.foldl (fun acc x => if x ∈ acc then acc else acc ++ [x]) s

/-- The `SubscribeMessage` branch of `WormholeDaemon._handle_message`:
`"*"` adds every currently existing session name to this peer's
subscription set, otherwise the named sessions are added. -/
def handleSubscribe (sessionNames : List String) (arg : SubscribeArg)
    (subscribed : List String) : List String :=
  match arg with
  | SubscribeArg.wildcard => setUpdate subscribed sessionNames
  | SubscribeArg.names l => setUpdate subscribed l

end WormholeDaemon

/-! ## Helper lemmas -/

theorem mem_notifyRegistry {x : EventPersistence.Effect} {pc c : Bool}
    (h : x ∈ WormholeSession.notifyRegistry pc c) :
    x = EventPersistence.Effect.persistCb := by
  cases pc <;> cases c <;> simp_all [WormholeSession.notifyRegistry]

theorem evictLoop_of_le {buf : List BufferedEvent} {size : Int} {cap : Nat}
    (h : ¬ (cap : Int) < size) :
    WormholeSession.evictLoop buf size cap = (buf, size) := by
  cases buf with
  | nil => rfl
  | cons e rest => simp [WormholeSession.evictLoop, h]

theorem lineBytes_le_fileBytes_concat (xs : List Json) (line : Json) :
    EventPersistence.lineBytes line ≤
      EventPersistence.fileBytes (xs ++ [line]) := by
  rw [EventPersistence.fileBytes, List.map_append, List.sum_append]
  simp

theorem get_latest_sequence_concat (xs : List Json) (e : PersistedEvent)
    (hfit : EventPersistence.lineBytes e.toJsonLine ≤ 4096) :
    EventPersistence.get_latest_sequence (xs ++ [e.toJsonLine]) = e.sequence := by
  simp only [EventPersistence.get_latest_sequence, List.getLast?_concat]
  rw [if_pos (le_min hfit (lineBytes_le_fileBytes_concat xs e.toJsonLine))]
  simp [PersistedEvent.fromJsonLine_toJsonLine]

theorem trace_sandwich (a b : EventPersistence.Effect)
    (I C : List EventPersistence.Effect) :
    ([a] ++ (I ++ (C ++ [b]))).head? = some a ∧
    ([a] ++ (I ++ (C ++ [b]))).getLast? = some b ∧
    2 ≤ ([a] ++ (I ++ (C ++ [b]))).length := by
  refine ⟨rfl, ?_, by simp; omega⟩
  have h : [a] ++ (I ++ (C ++ [b])) = (a :: (I ++ C)) ++ [b] := by simp
  rw [h, List.getLast?_concat]

/-! ## Claims -/

/-- C1: for every message the receive pump processes (with the disk write
succeeding and a broadcast callback set), the handler's effect trace
starts with the append of the freshly sequenced, freshly stamped event to
the on-disk log and ends with the broadcast of that same event, with the
append strictly before the broadcast. -/
theorem handle_appends_to_log_before_broadcast (pc : Bool) (st : SessionSt)
    (now : Nat) (msg : WormholeSession.SdkMessage) :
    (WormholeSession.handle_sdk_message true true pc st now msg).2.head? =
      some (EventPersistence.Effect.appendLog
        ⟨st.sequence + 1, now, Json.obj (WormholeSession.normalizeMsg msg)⟩) ∧
    (WormholeSession.handle_sdk_message true true pc st now msg).2.getLast? =
      some (EventPersistence.Effect.broadcastEvent st.name (st.sequence + 1) now
        (Json.obj (WormholeSession.normalizeMsg msg))) ∧
    2 ≤ (WormholeSession.handle_sdk_message true true pc st now msg).2.length := by
  simpa [WormholeSession.handle_sdk_message, EventPersistence.append_event]
    using trace_sandwich
      (EventPersistence.Effect.appendLog
        ⟨st.sequence + 1, now, Json.obj (WormholeSession.normalizeMsg msg)⟩)
      (EventPersistence.Effect.broadcastEvent st.name (st.sequence + 1) now
        (Json.obj (WormholeSession.normalizeMsg msg)))
      (WormholeSession.notifyRegistry pc
        (WormholeSession.capturedSessionId (WormholeSession.normalizeMsg msg)).isSome)
      (WormholeSession.notifyRegistry pc
        (WormholeSession.costUpdate (WormholeSession.normalizeMsg msg)).isSome)

/-- A concrete session that has already captured an agent session id. -/
def sessionWithCapturedId : SessionSt :=
  { WormholeSession.construct "alpha" "/work/alpha" 2000 [] with
      claude_session_id := some "sdk-old"
      state := SessionState.working }

/-- A later `init` message carrying a different `session_id` in `data`. -/
def laterInitMsg : WormholeSession.SdkMessage :=
  WormholeSession.SdkMessage.ofDict
    [("subtype", Json.str "init"),
     ("data", Json.obj [("session_id", Json.str "sdk-new")])]

/-- C2 counterexample: the capture in `_handle_sdk_message` has no
"only if not yet captured" guard, so a session whose stored agent session
id is `"sdk-old"` ends up with `"sdk-new"` after a later `init` message —
the stored id is overwritten, contradicting the claim. -/
theorem handle_init_overwrites_counterexample :
    sessionWithCapturedId.claude_session_id = some "sdk-old" ∧
    (WormholeSession.handle_sdk_message true true true sessionWithCapturedId 7
        laterInitMsg).1.claude_session_id = some "sdk-new" :=
  ⟨rfl, rfl⟩

/-- C2 amended: a message with `subtype == "init"` whose `data` object
carries a `session_id` always (re)captures it: the stored id becomes
`str(data["session_id"])` regardless of whether one was captured
before. -/
theorem handle_init_captures_unconditionally (dk bc pc : Bool)
    (st : SessionSt) (now : Nat) (msg : WormholeSession.SdkMessage)
    (sid : Json) (data : List (String × Json))
    (hsub : dictGet (WormholeSession.normalizeMsg msg) "subtype" =
      some (Json.str "init"))
    (hdata : (dictGet (WormholeSession.normalizeMsg msg) "data").getD
      (Json.obj []) = Json.obj data)
    (hsid : dictGet data "session_id" = some sid) :
    (WormholeSession.handle_sdk_message dk bc pc st now msg).1.claude_session_id =
      some (pyStr sid) := by
  simp [WormholeSession.handle_sdk_message, WormholeSession.capturedSessionId,
    hsub, hdata, hsid]

/-- Witness for the amended C2 at a concrete input. -/
theorem handle_init_captures_unconditionally_witness :
    (WormholeSession.handle_sdk_message true true true sessionWithCapturedId 7
        laterInitMsg).1.claude_session_id = some (pyStr (Json.str "sdk-new")) :=
  handle_init_captures_unconditionally true true true sessionWithCapturedId 7
    laterInitMsg (Json.str "sdk-new") [("session_id", Json.str "sdk-new")]
    rfl rfl rfl

/-- C4 counterexample: `save_sessions` performs no write-to-temp +
rename: there is no temporary path that is first written and then renamed
over the registry path — the only write goes straight to the registry
path. -/
theorem save_sessions_no_rename_counterexample :
    ¬ ∃ tmp doc,
        tmp ≠ "/data/wormhole/sessions.json" ∧
        SessionPersistence.FsEffect.writeFile tmp doc ∈
          SessionPersistence.save_sessions "/data/wormhole/sessions.json" [] ∧
        SessionPersistence.FsEffect.renameFile tmp "/data/wormhole/sessions.json" ∈
          SessionPersistence.save_sessions "/data/wormhole/sessions.json" [] := by
  rintro ⟨tmp, doc, hne, hw, hr⟩
  simp [SessionPersistence.save_sessions] at hr

/-- C4 amended: every save of the registry serializes the version-tagged
document (version tag 1 plus the descriptor list) and writes it directly
to the registry path, with no rename step — so a crash during the write
can leave a partially written registry file. -/
theorem save_sessions_writes_directly (path : String)
    (sessions : List PersistedSession) :
    ((SessionPersistence.save_sessions path sessions).filterMap (fun e =>
        match e with
        | SessionPersistence.FsEffect.writeFile p c => some (p, c)
        | _ => none) =
      [(path, Json.obj [("version", Json.num 1),
        ("sessions", Json.arr (sessions.map PersistedSession.to_dict))])]) ∧
    (∀ src dst, SessionPersistence.FsEffect.renameFile src dst ∉
        SessionPersistence.save_sessions path sessions) := by
  refine ⟨rfl, ?_⟩
  intro src dst h
  simp [SessionPersistence.save_sessions] at h

theorem eraseP_key_not_mem {α : Type} (key : α → String) (rid : String) :
    ∀ (l : List α), l.Pairwise (fun a b => key a ≠ key b) →
      ∀ x ∈ l.eraseP (fun a => key a == rid), key x ≠ rid
  | [], _, x, hx => by simp at hx
  | a :: l, hp, x, hx => by
    rcases List.pairwise_cons.mp hp with ⟨ha, hl⟩
    simp only [List.eraseP_cons] at hx
    cases hk : key a == rid with
    | true =>
      rw [hk, cond_true] at hx
      intro hxr
      exact ha x hx (by rw [beq_iff_eq.mp hk, hxr])
    | false =>
      rw [hk, cond_false] at hx
      rcases List.mem_cons.mp hx with h | h
      · subst h
        intro hxr
        rw [hxr] at hk
        simp at hk
      · exact eraseP_key_not_mem key rid l hl x h

/-- C8: resolving a pending permission removes the pending record (both
the future and the details entry for that `request_id`), sets the session
state back to `working`, and returns allow-with-unchanged-input when the
decision is `"allow"` and otherwise deny with message `"User denied"` and
`interrupt = false`.  The uniqueness hypotheses are the dict-key
invariant of `_pending_permissions` / `_pending_permission_details`. -/
theorem permission_resolution_spec (st : SessionSt) (rid : String)
    (input : Json) (d : String)
    (h1 : st.pending_permissions.Pairwise (fun a b => a.1 ≠ b.1))
    (h2 : st.pending_permission_details.Pairwise
      (fun a b => a.request_id ≠ b.request_id)) :
    (∀ p ∈ (WormholeSession.permission_handler_resolve st rid input
        d).1.pending_permissions, p.1 ≠ rid) ∧
    (∀ p ∈ (WormholeSession.permission_handler_resolve st rid input
        d).1.pending_permission_details, p.request_id ≠ rid) ∧
    (WormholeSession.permission_handler_resolve st rid input d).1.state =
      SessionState.working ∧
    (WormholeSession.permission_handler_resolve st rid input d).2 =
      (if d = "allow" then WormholeSession.PermissionResult.allow input
       else WormholeSession.PermissionResult.deny "User denied" false) := by
  refine ⟨?_, ?_, rfl, rfl⟩
  · exact eraseP_key_not_mem (fun p => p.1) rid st.pending_permissions h1
  · exact eraseP_key_not_mem (fun p => p.request_id) rid
      st.pending_permission_details h2

/-- A session with exactly one pending permission, for the C8 witness. -/
def sessionWithPending : SessionSt :=
  { WormholeSession.construct "beta" "/work/beta" 2000 [] with
      state := SessionState.awaiting_approval
      pending_permissions := [("req-1", FutureState.pending)]
      pending_permission_details :=
        [{ request_id := "req-1", tool_name := "Write",
           tool_input := Json.obj [("file_path", Json.str "a.py")],
           created_at := 3 }] }

/-- Witness for C8 at a concrete denied permission. -/
theorem permission_resolution_spec_witness :
    (∀ p ∈ (WormholeSession.permission_handler_resolve sessionWithPending
        "req-1" (Json.obj [("file_path", Json.str "a.py")])
        "deny").1.pending_permissions, p.1 ≠ "req-1") ∧
    (∀ p ∈ (WormholeSession.permission_handler_resolve sessionWithPending
        "req-1" (Json.obj [("file_path", Json.str "a.py")])
        "deny").1.pending_permission_details, p.request_id ≠ "req-1") ∧
    (WormholeSession.permission_handler_resolve sessionWithPending "req-1"
        (Json.obj [("file_path", Json.str "a.py")]) "deny").1.state =
      SessionState.working ∧
    (WormholeSession.permission_handler_resolve sessionWithPending "req-1"
        (Json.obj [("file_path", Json.str "a.py")]) "deny").2 =
      (if "deny" = "allow" then
        WormholeSession.PermissionResult.allow
          (Json.obj [("file_path", Json.str "a.py")])
       else WormholeSession.PermissionResult.deny "User denied" false) :=
  permission_resolution_spec sessionWithPending "req-1"
    (Json.obj [("file_path", Json.str "a.py")]) "deny"
    (by simp [sessionWithPending]) (by simp [sessionWithPending])

/-- C9: `respond_to_permission` returns `true` exactly when a pending
future exists for the `request_id` and is not yet resolved; whenever it
returns `false` — in particular on an unknown id — the session state and
the pending-permission tables are left untouched. -/
theorem respond_to_permission_spec (st : SessionSt) (rid d : String) :
    ((WormholeSession.respond_to_permission st rid d).2 = true ↔
      (st.pending_permissions.find? (fun p => p.1 == rid)).map (fun p => p.2) =
        some FutureState.pending) ∧
    ((WormholeSession.respond_to_permission st rid d).2 = false →
      (WormholeSession.respond_to_permission st rid d).1 = st) := by
  constructor
  · cases h : (st.pending_permissions.find? (fun p => p.1 == rid)).map
        (fun p => p.2) with
    | none => simp [WormholeSession.respond_to_permission, h]
    | some fs => cases fs <;> simp [WormholeSession.respond_to_permission, h]
  · intro hfalse
    revert hfalse
    cases h : (st.pending_permissions.find? (fun p => p.1 == rid)).map
        (fun p => p.2) with
    | none => intro _; simp [WormholeSession.respond_to_permission, h]
    | some fs =>
      cases fs with
      | pending => simp [WormholeSession.respond_to_permission, h]
      | done dec => intro _; simp [WormholeSession.respond_to_permission, h]

/-- Witness for C9: an unknown request id on a fresh session returns
false and leaves the state unchanged. -/
theorem respond_to_permission_spec_witness :
    (WormholeSession.respond_to_permission
        (WormholeSession.construct "gamma" "/work/gamma" 10 []) "missing"
        "allow").1 =
      WormholeSession.construct "gamma" "/work/gamma" 10 [] :=
  (respond_to_permission_spec (WormholeSession.construct "gamma" "/work/gamma"
    10 []) "missing" "allow").2 rfl

/-- C10: when the disk write of an event fails, the failure is contained:
no exception reaches the receive pump (the handler is total), only a
logged error marks the failure, the event log is unchanged (no append
effect at all), yet the sequence counter still advances, the event stays
in the in-memory buffer (given it fits under the size cap), and the event
is still broadcast — so a broadcast event can be absent from the log. -/
theorem append_failure_contained (pc : Bool) (st : SessionSt) (now : Nat)
    (msg : WormholeSession.SdkMessage)
    (hfit : st.event_buffer_size +
        (((⟨st.sequence + 1, now, Json.obj (WormholeSession.normalizeMsg msg)⟩ :
          BufferedEvent).estimated_size : Int)) ≤ (st.buffer_size_bytes : Int)) :
    (WormholeSession.handle_sdk_message false true pc st now msg).1.eventFile =
      st.eventFile ∧
    (WormholeSession.handle_sdk_message false true pc st now msg).1.sequence =
      st.sequence + 1 ∧
    EventPersistence.Effect.logError ∈
      (WormholeSession.handle_sdk_message false true pc st now msg).2 ∧
    (∀ e, EventPersistence.Effect.appendLog e ∉
      (WormholeSession.handle_sdk_message false true pc st now msg).2) ∧
    EventPersistence.Effect.broadcastEvent st.name (st.sequence + 1) now
        (Json.obj (WormholeSession.normalizeMsg msg)) ∈
      (WormholeSession.handle_sdk_message false true pc st now msg).2 ∧
    (⟨st.sequence + 1, now, Json.obj (WormholeSession.normalizeMsg msg)⟩ :
        BufferedEvent) ∈
      (WormholeSession.handle_sdk_message false true pc st now msg).1.event_buffer := by
  have ht : (WormholeSession.handle_sdk_message false true pc st now msg).2 =
      EventPersistence.Effect.logError ::
        (WormholeSession.notifyRegistry pc
            (WormholeSession.capturedSessionId
              (WormholeSession.normalizeMsg msg)).isSome ++
          (WormholeSession.notifyRegistry pc
              (WormholeSession.costUpdate
                (WormholeSession.normalizeMsg msg)).isSome ++
            [EventPersistence.Effect.broadcastEvent st.name (st.sequence + 1)
              now (Json.obj (WormholeSession.normalizeMsg msg))])) := rfl
  refine ⟨rfl, rfl, ?_, ?_, ?_, ?_⟩
  · rw [ht]; simp
  · intro e he
    rw [ht] at he
    rcases List.mem_cons.mp he with h | h
    · simp at h
    rcases List.mem_append.mp h with h | h
    · exact absurd (mem_notifyRegistry h) (by simp)
    rcases List.mem_append.mp h with h | h
    · exact absurd (mem_notifyRegistry h) (by simp)
    · simp at h
  · rw [ht]; simp
  · have hle : ¬ ((st.buffer_size_bytes : Int) < st.event_buffer_size +
        (((⟨st.sequence + 1, now,
          Json.obj (WormholeSession.normalizeMsg msg)⟩ :
            BufferedEvent).estimated_size : Int))) := not_lt.mpr hfit
    have hb : (WormholeSession.handle_sdk_message false true pc st now
        msg).1.event_buffer =
        (WormholeSession.evictLoop
          (st.event_buffer ++
            [⟨st.sequence + 1, now,
              Json.obj (WormholeSession.normalizeMsg msg)⟩])
          (st.event_buffer_size +
            (((⟨st.sequence + 1, now,
              Json.obj (WormholeSession.normalizeMsg msg)⟩ :
                BufferedEvent).estimated_size : Int)))
          st.buffer_size_bytes).1 := rfl
    rw [hb, evictLoop_of_le hle]
    simp

/-- A fresh session and simple message for the C10 witness. -/
def c10State : SessionSt :=
  WormholeSession.construct "delta" "/work/delta" 100000 []

/-- The message used by the C10 witness. -/
def c10Msg : WormholeSession.SdkMessage :=
  WormholeSession.SdkMessage.ofDict [("type", Json.str "text")]

/-- Witness for C10 at a concrete failed disk write. -/
theorem append_failure_contained_witness :
    (WormholeSession.handle_sdk_message false true true c10State 1
        c10Msg).1.eventFile = c10State.eventFile ∧
    (WormholeSession.handle_sdk_message false true true c10State 1
        c10Msg).1.sequence = c10State.sequence + 1 ∧
    EventPersistence.Effect.logError ∈
      (WormholeSession.handle_sdk_message false true true c10State 1 c10Msg).2 ∧
    (∀ e, EventPersistence.Effect.appendLog e ∉
      (WormholeSession.handle_sdk_message false true true c10State 1 c10Msg).2) ∧
    EventPersistence.Effect.broadcastEvent c10State.name (c10State.sequence + 1)
        1 (Json.obj (WormholeSession.normalizeMsg c10Msg)) ∈
      (WormholeSession.handle_sdk_message false true true c10State 1 c10Msg).2 ∧
    (⟨c10State.sequence + 1, 1,
        Json.obj (WormholeSession.normalizeMsg c10Msg)⟩ : BufferedEvent) ∈
      (WormholeSession.handle_sdk_message false true true c10State 1
        c10Msg).1.event_buffer :=
  append_failure_contained true c10State 1 c10Msg (by decide)

theorem mem_setUpdate (s : String) : ∀ (new acc : List String),
    s ∈ WormholeDaemon.setUpdate acc new ↔ s ∈ acc ∨ s ∈ new
  | [], acc => by simp [WormholeDaemon.setUpdate]
  | x :: new, acc => by
    rw [show WormholeDaemon.setUpdate acc (x :: new) =
        WormholeDaemon.setUpdate (if x ∈ acc then acc else acc ++ [x]) new
      from rfl, mem_setUpdate s new (if x ∈ acc then acc else acc ++ [x])]
    by_cases hx : x ∈ acc
    · simp only [if_pos hx, List.mem_cons]
      constructor
      · rintro (h | h)
        · exact Or.inl h
        · exact Or.inr (Or.inr h)
      · rintro (h | h | h)
        · exact Or.inl h
        · exact Or.inl (by rw [h]; exact hx)
        · exact Or.inr h
    · simp only [if_neg hx, List.mem_append, List.mem_cons, List.not_mem_nil,
        or_false]
      constructor
      · rintro ((h | h) | h)
        · exact Or.inl h
        · exact Or.inr (Or.inl h)
        · exact Or.inr (Or.inr h)
      · rintro (h | h | h)
        · exact Or.inl (Or.inl h)
        · exact Or.inl (Or.inr h)
        · exact Or.inr h

/-- C3 counterexample: a connected peer that never sent a `subscribe`
frame — its subscription set is empty, containing neither the event's
session `"s1"` nor the wildcard `"*"` — is nevertheless sent the event
frame by `_broadcast`. -/
theorem broadcast_unsubscribed_peer_counterexample :
    WormholeDaemon.broadcast [{ id := 0, subscribed := [] }]
        (ServerMsg.event "s1" 1 0 (Json.obj [])) =
      [WormholeDaemon.NetEffect.send 0 (ServerMsg.event "s1" 1 0 (Json.obj []))] ∧
    ¬ (("s1" : String) ∈ ([] : List String) ∨
        ("*" : String) ∈ ([] : List String)) :=
  ⟨rfl, by simp⟩

/-- C3 amended: `_broadcast` sends every broadcast message to every
connected peer, regardless of the peer's subscription set; a `subscribe`
frame only grows the per-connection subscription set (with the named
sessions, or with every currently existing session name for `"*"`), and
that set is never consulted by the broadcast path. -/
theorem broadcast_sends_to_all_clients (clients : List WormholeDaemon.Peer)
    (msg : ServerMsg) :
    WormholeDaemon.broadcast clients msg =
      clients.map (fun c => WormholeDaemon.NetEffect.send c.id msg) ∧
    (∀ sessionNames l sub s,
      s ∈ WormholeDaemon.handleSubscribe sessionNames
          (WormholeDaemon.SubscribeArg.names l) sub ↔ (s ∈ sub ∨ s ∈ l)) ∧
    (∀ sessionNames sub s,
      s ∈ WormholeDaemon.handleSubscribe sessionNames
          WormholeDaemon.SubscribeArg.wildcard sub ↔
        (s ∈ sub ∨ s ∈ sessionNames)) := by
  refine ⟨?_, ?_, ?_⟩
  · cases clients <;> simp [WormholeDaemon.broadcast]
  · intro sessionNames l sub s
    exact mem_setUpdate s l sub
  · intro sessionNames sub s
    exact mem_setUpdate s sessionNames sub

/-- The spec-side notion for C7: the highest sequence among the events
that parse from the file — "the highest persisted sequence, 0 if
none". -/
def highestPersistedSequence (file : List Json) : Nat :=
  (file.filterMap PersistedEvent.fromJsonLine).foldr
    (fun e m => max e.sequence m) 0

theorem filterMap_fromJsonLine_map (evs : List PersistedEvent) :
    (evs.map PersistedEvent.toJsonLine).filterMap PersistedEvent.fromJsonLine =
      evs := by
  induction evs with
  | nil => rfl
  | cons e l ih =>
    simp [List.filterMap_cons, PersistedEvent.fromJsonLine_toJsonLine, ih]

theorem foldr_max_eq_of_le (a : Nat) : ∀ (l : List PersistedEvent),
    (∀ y ∈ l, y.sequence ≤ a) →
    l.foldr (fun e m => max e.sequence m) a = a
  | [], _ => rfl
  | e :: l, h => by
    rw [List.foldr_cons,
      foldr_max_eq_of_le a l (fun y hy => h y (List.mem_cons_of_mem e hy))]
    exact max_eq_right (h e (List.mem_cons_self e l))

/-- A 4200-character payload: the event line that serializes it exceeds
the 4096-byte tail chunk that `get_latest_sequence` reads. -/
def bigStr : String := String.mk (List.replicate 4200 'x')

/-- The single line of an event file holding one persisted event with
sequence 1 whose message carries the oversized payload. -/
def oversizedLine : Json :=
  PersistedEvent.toJsonLine ⟨1, 0, Json.obj [("raw", Json.str bigStr)]⟩

theorem bigStr_length : bigStr.length = 4200 := by
  show (List.replicate 4200 'x').length = 4200
  exact List.length_replicate 4200 'x'

theorem oversizedLine_too_big : 4096 < EventPersistence.lineBytes oversizedLine := by
  rw [EventPersistence.lineBytes, oversizedLine, PersistedEvent.toJsonLine]
  simp only [jsonDumpLen, jsonDumpLen.jsonDumpLenObj, bigStr_length]
  decide

theorem get_latest_oversized :
    EventPersistence.get_latest_sequence [oversizedLine] = 0 := by
  have h1 : ([oversizedLine] : List Json).getLast? = some oversizedLine := rfl
  simp only [EventPersistence.get_latest_sequence, h1]
  rw [if_neg (fun hc => absurd (le_trans hc (min_le_left _ _))
    (not_le.mpr oversizedLine_too_big))]

/-- C7 counterexample: an event file that ends at a line boundary and
holds exactly one persisted event (sequence 1), whose line is longer than
the 4096-byte tail chunk: the chunk contains only a truncated suffix of
the line, its parse fails, and `get_latest_sequence` returns 0 — not the
highest persisted sequence, which is 1. -/
theorem get_latest_oversized_counterexample :
    EventPersistence.get_latest_sequence [oversizedLine] = 0 ∧
    highestPersistedSequence [oversizedLine] = 1 :=
  ⟨get_latest_oversized,
   by simp [highestPersistedSequence, oversizedLine,
     PersistedEvent.fromJsonLine_toJsonLine]⟩

/-- C7 amended: on a session's event file — encoded events appended in
increasing sequence order, so the file ends at a line boundary, and any
truncation to a whole prefix of lines has the same shape — whose lines
each fit (with their newline) inside the 4096-byte tail chunk,
`get_latest_sequence` returns the highest persisted sequence; it returns
0 when no events are persisted; and it depends only on the file's last
line, so scanning the tail chunk suffices.  When the last line exceeds
the chunk it returns 0 instead (see the counterexample). -/
theorem get_latest_sequence_is_highest_chunked (evs : List PersistedEvent)
    (hsorted : evs.Pairwise (fun a b => a.sequence < b.sequence))
    (hfit : ∀ e ∈ evs, EventPersistence.lineBytes e.toJsonLine ≤ 4096) :
    EventPersistence.get_latest_sequence (evs.map PersistedEvent.toJsonLine) =
      highestPersistedSequence (evs.map PersistedEvent.toJsonLine) ∧
    EventPersistence.get_latest_sequence [] = 0 ∧
    (∀ xs line, EventPersistence.get_latest_sequence (xs ++ [line]) =
      EventPersistence.get_latest_sequence [line]) := by
  refine ⟨?_, rfl, ?_⟩
  · rw [highestPersistedSequence, filterMap_fromJsonLine_map]
    induction evs using List.reverseRecOn with
    | nil => rfl
    | append_singleton ys e ih =>
      rcases List.pairwise_append.mp hsorted with ⟨hys, _, hcross⟩
      rw [List.map_append, List.map_singleton,
        get_latest_sequence_concat (ys.map PersistedEvent.toJsonLine) e
          (hfit e (by simp)),
        List.foldr_append]
      have hmax : List.foldr (fun e m => max e.sequence m) 0 [e] = e.sequence := by
        simp
      rw [hmax, foldr_max_eq_of_le e.sequence ys (fun y hy =>
        le_of_lt (hcross y hy e (List.mem_singleton.mpr rfl)))]
  · intro xs line
    have h1 : ([line] : List Json).getLast? = some line := rfl
    have h2 : EventPersistence.lineBytes line ≤
        EventPersistence.fileBytes [line] := by
      simp [EventPersistence.fileBytes]
    simp only [EventPersistence.get_latest_sequence, List.getLast?_concat, h1]
    by_cases hb : EventPersistence.lineBytes line ≤ 4096
    · rw [if_pos (le_min hb (lineBytes_le_fileBytes_concat xs line)),
        if_pos (le_min hb h2)]
    · rw [if_neg (fun hc => hb (le_trans hc (min_le_left _ _))),
        if_neg (fun hc => hb (le_trans hc (min_le_left _ _)))]

/-- Witness for the amended C7 on a concrete two-event file whose lines
fit in the tail chunk. -/
theorem get_latest_sequence_is_highest_chunked_witness :
    EventPersistence.get_latest_sequence
        ([⟨1, 0, Json.null⟩, ⟨2, 4, Json.null⟩].map PersistedEvent.toJsonLine) =
      highestPersistedSequence
        ([⟨1, 0, Json.null⟩, ⟨2, 4, Json.null⟩].map PersistedEvent.toJsonLine) ∧
    EventPersistence.get_latest_sequence [] = 0 ∧
    (∀ xs line, EventPersistence.get_latest_sequence (xs ++ [line]) =
      EventPersistence.get_latest_sequence [line]) :=
  get_latest_sequence_is_highest_chunked [⟨1, 0, Json.null⟩, ⟨2, 4, Json.null⟩]
    (by simp) (by decide)

theorem range'_drop : ∀ (len s k : Nat),
    (List.range' s len).drop k = List.range' (s + k) (len - k)
  | 0, s, k => by simp
  | len + 1, s, 0 => by simp
  | len + 1, s, k + 1 => by
    rw [List.range'_succ, List.drop_succ_cons, range'_drop len (s + 1) k,
      Nat.succ_sub_succ]
    congr 1
    omega

theorem filter_gt_range'_map (h : Nat → BufferedEvent)
    (hseq : ∀ k, (h k).sequence = k) :
    ∀ (len start seq : Nat),
      ((List.range' start len).map h).filter
          (fun e => decide (seq < e.sequence)) =
        ((List.range' start len).map h).drop (seq + 1 - start)
  | 0, start, seq => by simp
  | len + 1, start, seq => by
    rw [List.range'_succ, List.map_cons, List.filter_cons]
    by_cases hc : seq < start
    · have h2 : seq + 1 - (start + 1) = 0 := by omega
      have ih := filter_gt_range'_map h hseq len (start + 1) seq
      rw [h2, List.drop_zero] at ih
      rw [if_pos (by simp [hseq]; exact hc), ih,
        show seq + 1 - start = 0 from by omega, List.drop_zero]
    · have ih := filter_gt_range'_map h hseq len (start + 1) seq
      rw [if_neg (by simp [hseq]; omega), ih,
        show seq + 1 - (start + 1) = seq - start from by omega,
        show seq + 1 - start = (seq - start) + 1 from by omega,
        List.drop_succ_cons]

theorem load_events_roundtrip (seq : Nat) : ∀ (L : List BufferedEvent),
    (EventPersistence.load_events
        (L.map (fun e => PersistedEvent.toJsonLine
          ⟨e.sequence, e.timestamp, e.message⟩)) seq).map
      (fun e => (⟨e.sequence, e.timestamp, e.message⟩ : BufferedEvent)) =
      L.filter (fun e => decide (seq < e.sequence))
  | [] => rfl
  | e :: L => by
    have ih := load_events_roundtrip seq L
    simp only [EventPersistence.load_events] at ih ⊢
    rw [List.map_cons, List.filterMap_cons, List.filter_cons]
    simp only [PersistedEvent.fromJsonLine_toJsonLine]
    by_cases hc : seq < e.sequence
    · rw [if_pos hc, if_pos (by simp [hc]), List.map_cons, ih]
    · rw [if_neg hc, if_neg (by simp [hc]), ih]

/-- C6: on a reachable session state — the on-disk log holds the encoded
history events with sequences exactly `1..n`, the in-memory buffer is the
contiguous suffix with sequences `j+1..n`, and the sequence counter is
`n` — `get_events_since seq` returns exactly the history events with
sequence strictly greater than `seq`, in sequence order (served from the
buffer when the buffer's first qualifying event has sequence `seq + 1`,
otherwise re-read from the event log); in particular the result is empty
when `seq` equals the current sequence counter `n`. -/
theorem get_events_since_spec (h : Nat → BufferedEvent) (n j seq : Nat)
    (st : SessionSt)
    (hseq : ∀ k, (h k).sequence = k)
    (hj : j ≤ n)
    (hbuf : st.event_buffer = (List.range' (j + 1) (n - j)).map h)
    (hfile : st.eventFile = ((List.range' 1 n).map h).map
      (fun e => PersistedEvent.toJsonLine ⟨e.sequence, e.timestamp, e.message⟩)) :
    WormholeSession.get_events_since st seq =
      ((List.range' 1 n).map h).filter (fun e => decide (seq < e.sequence)) ∧
    (seq = n → WormholeSession.get_events_since st seq = []) := by
  have hfb : (EventPersistence.load_events st.eventFile seq).map
      (fun e => (⟨e.sequence, e.timestamp, e.message⟩ : BufferedEvent)) =
      ((List.range' 1 n).map h).filter (fun e => decide (seq < e.sequence)) := by
    rw [hfile]
    exact load_events_roundtrip seq ((List.range' 1 n).map h)
  have hfilterL : ((List.range' 1 n).map h).filter
        (fun e => decide (seq < e.sequence)) =
      (List.range' (1 + seq) (n - seq)).map h := by
    rw [filter_gt_range'_map h hseq n 1 seq, Nat.add_sub_cancel,
      ← List.map_drop, range'_drop]
  have hfilterB : st.event_buffer.filter (fun e => decide (seq < e.sequence)) =
      (List.range' (j + 1 + (seq - j)) (n - j - (seq - j))).map h := by
    rw [hbuf, filter_gt_range'_map h hseq (n - j) (j + 1) seq,
      show seq + 1 - (j + 1) = seq - j from by omega,
      ← List.map_drop, range'_drop]
  have hmain : WormholeSession.get_events_since st seq =
      ((List.range' 1 n).map h).filter (fun e => decide (seq < e.sequence)) := by
    rw [show WormholeSession.get_events_since st seq =
        (match (st.event_buffer.filter
            (fun e => decide (seq < e.sequence))).head? with
         | some b =>
           if b.sequence = seq + 1 then
             st.event_buffer.filter (fun e => decide (seq < e.sequence))
           else
             (EventPersistence.load_events st.eventFile seq).map
               (fun e => (⟨e.sequence, e.timestamp, e.message⟩ : BufferedEvent))
         | none =>
           (EventPersistence.load_events st.eventFile seq).map
             (fun e => (⟨e.sequence, e.timestamp, e.message⟩ : BufferedEvent)))
      from rfl]
    by_cases hjs : j ≤ seq
    · by_cases hsn : seq < n
      · have hidx1 : j + 1 + (seq - j) = seq + 1 := by omega
        have hidx2 : n - j - (seq - j) = n - seq := by omega
        have hlen : n - seq = (n - seq - 1) + 1 := by omega
        rw [hfilterB, hidx1, hidx2, hlen, List.range'_succ, List.map_cons]
        simp only [List.head?_cons]
        rw [hseq (seq + 1), if_pos rfl]
        rw [hfilterL, show 1 + seq = seq + 1 from by omega, hlen,
          List.range'_succ, List.map_cons, Nat.add_sub_cancel]
      · have hidx : n - j - (seq - j) = 0 := by omega
        rw [hfilterB, hidx]
        simp only [List.range'_zero, List.map_nil, List.head?_nil]
        exact hfb
    · have hj0 : seq - j = 0 := by omega
      by_cases hjn : j < n
      · have hlen : n - j = (n - j - 1) + 1 := by omega
        rw [hfilterB, hj0, Nat.add_zero, Nat.sub_zero, hlen, List.range'_succ,
          List.map_cons]
        simp only [List.head?_cons]
        rw [hseq (j + 1), if_neg (by omega)]
        exact hfb
      · have hlen : n - j = 0 := by omega
        rw [hfilterB, hj0, Nat.add_zero, Nat.sub_zero, hlen]
        simp only [List.range'_zero, List.map_nil, List.head?_nil]
        exact hfb
  refine ⟨hmain, fun hsn => ?_⟩
  rw [hmain, hfilterL, hsn, Nat.sub_self]
  rfl

/-- Concrete three-event history for the C6 witness. -/
def c6History : Nat → BufferedEvent := fun k => ⟨k, 0, Json.null⟩

/-- Concrete session state for the C6 witness: log holds events 1..3,
buffer holds the suffix 2..3. -/
def c6State : SessionSt :=
  { WormholeSession.construct "epsilon" "/work/epsilon" 2000
      (((List.range' 1 3).map c6History).map
        (fun e => PersistedEvent.toJsonLine
          ⟨e.sequence, e.timestamp, e.message⟩)) with
      event_buffer := (List.range' (1 + 1) (3 - 1)).map c6History }

/-- Witness for C6 at a concrete reachable state. -/
theorem get_events_since_spec_witness :
    WormholeSession.get_events_since c6State 1 =
      ((List.range' 1 3).map c6History).filter
        (fun e => decide (1 < e.sequence)) ∧
    ((1 : Nat) = 3 → WormholeSession.get_events_since c6State 1 = []) :=
  get_events_since_spec c6History 3 1 1 c6State (fun _ => rfl) (by omega)
    rfl rfl

/-- C5 counterexample: the event file holds a single persisted event with
sequence 1, but its line exceeds the 4096-byte tail chunk, so
`get_latest_sequence` returns 0: the freshly constructed (restarted)
session restores its counter as 0 — the restart does reset it — and the
next processed message receives sequence 1 instead of
`highest + 1 = 2`, so the contiguous on-disk sequence is not
continued. -/
theorem construct_sequence (name dir : String) (cap : Nat)
    (file : List Json) :
    (WormholeSession.construct name dir cap file).sequence =
      EventPersistence.get_latest_sequence file := rfl

theorem handle_sequence_succ (dk bc pc : Bool) (st : SessionSt) (now : Nat)
    (msg : WormholeSession.SdkMessage) :
    (WormholeSession.handle_sdk_message dk bc pc st now msg).1.sequence =
      st.sequence + 1 := rfl

theorem construct_reset_counterexample :
    highestPersistedSequence [oversizedLine] = 1 ∧
    (WormholeSession.construct "zeta" "/work/zeta" 2097152
        [oversizedLine]).sequence = 0 ∧
    (WormholeSession.handle_sdk_message true true true
        (WormholeSession.construct "zeta" "/work/zeta" 2097152 [oversizedLine])
        9 (WormholeSession.SdkMessage.ofDict
          [("type", Json.str "text")])).1.sequence = 1 := by
  refine ⟨?_, ?_, ?_⟩
  · simp only [highestPersistedSequence, oversizedLine, List.filterMap_cons,
      PersistedEvent.fromJsonLine_toJsonLine, List.filterMap_nil,
      List.foldr_cons, List.foldr_nil]
    rfl
  · rw [construct_sequence, get_latest_oversized]
  · rw [handle_sequence_succ, construct_sequence, get_latest_oversized]

/-- C5 amended: the in-memory sequence counter of a freshly constructed
session equals `get_latest_sequence` of the persisted events — the value
parsed from the file's tail chunk — and the next processed message
receives sequence `get_latest_sequence + 1` in the counter and in the
appended log entry.  Provided the newly appended line fits (with its
newline) inside the 4096-byte tail chunk, the on-disk latest then equals
that same value, so for histories whose event lines fit the chunk a
restart continues the contiguous on-disk sequence; when the file's last
line exceeds the chunk, `get_latest_sequence` is 0 and numbering restarts
at 1 (see the counterexample). -/
theorem construct_restores_chunked_latest (name dir : String) (cap : Nat)
    (file : List Json) (now : Nat) (msg : WormholeSession.SdkMessage)
    (pc : Bool)
    (hfit : EventPersistence.lineBytes
      (PersistedEvent.toJsonLine
        ⟨EventPersistence.get_latest_sequence file + 1, now,
          Json.obj (WormholeSession.normalizeMsg msg)⟩) ≤ 4096) :
    (WormholeSession.construct name dir cap file).sequence =
      EventPersistence.get_latest_sequence file ∧
    (WormholeSession.handle_sdk_message true true pc
        (WormholeSession.construct name dir cap file) now msg).1.sequence =
      EventPersistence.get_latest_sequence file + 1 ∧
    EventPersistence.Effect.appendLog
        ⟨EventPersistence.get_latest_sequence file + 1, now,
          Json.obj (WormholeSession.normalizeMsg msg)⟩ ∈
      (WormholeSession.handle_sdk_message true true pc
        (WormholeSession.construct name dir cap file) now msg).2 ∧
    EventPersistence.get_latest_sequence
        (WormholeSession.handle_sdk_message true true pc
          (WormholeSession.construct name dir cap file) now msg).1.eventFile =
      EventPersistence.get_latest_sequence file + 1 := by
  refine ⟨rfl, rfl, ?_, ?_⟩
  · simp [WormholeSession.handle_sdk_message, EventPersistence.append_event,
      WormholeSession.construct]
  · have h : (WormholeSession.handle_sdk_message true true pc
        (WormholeSession.construct name dir cap file) now msg).1.eventFile =
        file ++ [PersistedEvent.toJsonLine
          ⟨EventPersistence.get_latest_sequence file + 1, now,
            Json.obj (WormholeSession.normalizeMsg msg)⟩] := rfl
    rw [h, get_latest_sequence_concat file _ hfit]

/-- Witness for the amended C5 on an empty history and a small
message. -/
theorem construct_restores_chunked_latest_witness :
    (WormholeSession.construct "eta" "/work/eta" 1000 []).sequence =
      EventPersistence.get_latest_sequence [] ∧
    (WormholeSession.handle_sdk_message true true true
        (WormholeSession.construct "eta" "/work/eta" 1000 []) 1
        (WormholeSession.SdkMessage.ofDict
          [("type", Json.str "text")])).1.sequence =
      EventPersistence.get_latest_sequence [] + 1 ∧
    EventPersistence.Effect.appendLog
        ⟨EventPersistence.get_latest_sequence [] + 1, 1,
          Json.obj (WormholeSession.normalizeMsg
            (WormholeSession.SdkMessage.ofDict
              [("type", Json.str "text")]))⟩ ∈
      (WormholeSession.handle_sdk_message true true true
        (WormholeSession.construct "eta" "/work/eta" 1000 []) 1
        (WormholeSession.SdkMessage.ofDict
          [("type", Json.str "text")])).2 ∧
    EventPersistence.get_latest_sequence
        (WormholeSession.handle_sdk_message true true true
          (WormholeSession.construct "eta" "/work/eta" 1000 []) 1
          (WormholeSession.SdkMessage.ofDict
            [("type", Json.str "text")])).1.eventFile =
      EventPersistence.get_latest_sequence [] + 1 :=
  construct_restores_chunked_latest "eta" "/work/eta" 1000 [] 1
    (WormholeSession.SdkMessage.ofDict [("type", Json.str "text")]) true
    (by decide)
